import Mathlib

/-!
Shallow embedding of `src/graphlab/aggregation/distributed_aggregator.hpp`,
the distributed map-reduce aggregator of the PowerGraph engine, together
with proofs of the specification claims about it.

Modelling conventions:
- wall-clock seconds (C++ `float`) are modelled as rationals, and the
  monotonic clock `timer::approx_time_seconds()` as a stream of successive
  readings `clk : Nat -> Rat`;
- a fatal `ASSERT_*` is modelled by returning `none`;
- `std::map` registries are modelled as association lists;
- the reduction element type `ReductionType` is a type parameter `R` and
  the user combine `operator+=` is a parameter `op : R -> R -> R`;
- user finalize functions are observable only through the argument they
  receive, so the model returns that value instead of storing a callback;
- the OpenMP runtime's index partition and the interleaving of RPC handler
  invocations are environment parameters of the corresponding functions.
-/

namespace GraphLab

variable {V E R : Type}

/-- Modelled from the spec: the repository's
`conditional_addition_wrapper<ReductionType>` (its source file is not part
of the sources provided, only this header uses it) is a tagged sum
Empty | Value(T) whose combine absorbs the empty side:
Empty + x = x, x + Empty = x, Value(a) + Value(b) = Value(a + b).
It is represented as `Option R`.  `cadd` is `operator+=(const T&)`,
folding one raw mapped value into the wrapper. -/
def cadd (op : R → R → R) : Option R → R → Option R
  | none, x => some x
  | some v, x => some (op v x)

/-- Modelled from the spec: wrapper-with-wrapper combine
(`operator+=(const conditional_addition_wrapper&)`); an empty right side
is absorbed. -/
def cmerge (op : R → R → R) : Option R → Option R → Option R
  | a, none => a
  | a, some x => cadd op a x

/-- A locally stored vertex of the distributed graph collaborator: the
machine that owns it (its replicas on other machines are ghosts), its
vertex data, and the locally stored in-edges. -/
structure LVert (V E : Type) where
  owner : Nat
  data : V
  in_edges : List E

/-- `map_reduce_type<ReductionType>` (lines 155-248): the type-erased
reduction descriptor.  `acc` is the conditional addition wrapper.  The C++
object also carries a `finalize_function` (whose only observable effect is
the argument value it receives, which the model functions return instead)
and a mutex (concurrency is modelled by explicit interleaving).  The map
function of the non-matching kind is the empty `boost::function`, which a
valid execution never invokes; registration fills it with a default. -/
structure MapReduce (V E R : Type) where
  vertex_map : Bool
  map_vtx_function : V → R
  map_edge_function : E → R
  acc : Option R

/-- `clone_empty` (lines 235-247): same kind and functions, empty sum. -/
def MapReduce.clone_empty (mr : MapReduce V E R) : MapReduce V E R :=
  { mr with acc := none }

/-- `clear_accumulator` (lines 227-229). -/
def MapReduce.clear_accumulator (mr : MapReduce V E R) : MapReduce V E R :=
  { mr with acc := none }

/-- Lookup in an association-list registry (`std::map::find`/`count`). -/
def alookup {α : Type} : List (String × α) → String → Option α
  | [], _ => none
  | e :: rest, k => if e.1 = k then some e.2 else alookup rest k

/-- In-place mutation of the entry of a key (`iter->second = ...` through
a `std::map` iterator). -/
def aupdate {α : Type} (k : String) (f : α → α) (l : List (String × α)) :
    List (String × α) :=
  l.map (fun e => if e.1 = k then (e.1, f e.2) else e)

/-- `std::map::operator[] = v`: overwrite the entry if the key is present,
otherwise insert it. -/
def upsert {α : Type} (k : String) (v : α) (l : List (String × α)) :
    List (String × α) :=
  if (alookup l k).isSome then aupdate k (fun _ => v) l else l ++ [(k, v)]

/-- `aggregate_period[key]`: `std::map<std::string,float>::operator[]`
reads the stored period, default-constructing `0` for an absent key. -/
def periodOf (periods : List (String × ℚ)) (k : String) : ℚ :=
  (alookup periods k).getD 0

/-- `add_vertex_aggregator` (lines 309-325): fails on an empty key or an
already-registered key, otherwise inserts a fresh vertex descriptor. -/
def add_vertex_aggregator [Inhabited R] (key : String) (map_function : V → R)
    (aggs : List (String × MapReduce V E R)) :
    Bool × List (String × MapReduce V E R) :=
  if key.length = 0 then (false, aggs)
  else
    match alookup aggs key with
    | none =>
      (true, aggs ++ [(key, { vertex_map := true,
                              map_vtx_function := map_function,
                              map_edge_function := fun _ => default,
                              acc := none })])
    | some _ => (false, aggs)

/-- `add_edge_aggregator` (lines 351-368): fails on an empty key or an
already-registered key, otherwise inserts a fresh edge descriptor. -/
def add_edge_aggregator [Inhabited R] (key : String) (map_function : E → R)
    (aggs : List (String × MapReduce V E R)) :
    Bool × List (String × MapReduce V E R) :=
  if key.length = 0 then (false, aggs)
  else
    match alookup aggs key with
    | none =>
      (true, aggs ++ [(key, { vertex_map := false,
                              map_vtx_function := fun _ => default,
                              map_edge_function := map_function,
                              acc := none })])
    | some _ => (false, aggs)

/-- The body of the OpenMP parallel region of `aggregate_now`
(lines 391-420): one thread's `localmr` after its loop.  For a vertex
reduction the `omp for` hands the thread a slice `idxs` of the local
vertex indices and the ghost filter `lvertex.owner() == rmi.procid()` is
applied.  For an edge reduction the loop carries NO `omp for`, so every
thread of the parallel region scans ALL local vertices' in-edges; the
`idxs` slice is ignored, exactly as in the source. -/
def sync_thread_fold (op : R → R → R) (procid : Nat) (g : List (LVert V E))
    (mr : MapReduce V E R) (idxs : List Nat) : Option R :=
  let localmr := mr.clone_empty
  if localmr.vertex_map then
    idxs.foldl (fun a i =>
      match g.get? i with
      | some lvertex =>
        if lvertex.owner = procid then
          cadd op a (localmr.map_vtx_function lvertex.data)
        else a
      | none => a) localmr.acc
  else
    g.foldl (fun a lvertex =>
      lvertex.in_edges.foldl
        (fun b e => cadd op b (localmr.map_edge_function e)) a) localmr.acc

/-- One machine's local reduction in `aggregate_now` (lines 386-420):
`mr->clear_accumulator()` followed by merging every thread clone into `mr`
under the `omp critical` section.  `parts` is the per-thread index
partition chosen by the OpenMP runtime. -/
def local_machine_acc (op : R → R → R) (procid : Nat) (g : List (LVert V E))
    (mr : MapReduce V E R) (parts : List (List Nat)) : Option R :=
  parts.foldl (fun a idxs => cmerge op a (sync_thread_fold op procid g mr idxs))
    mr.clear_accumulator.acc

/-- The gather / combine-on-coordinator / broadcast phase of
`aggregate_now` (lines 422-441): machine 0 folds every machine's gathered
accumulator (its own first, then machines 1..numprocs-1 in order via
`add_accumulator_any`) and broadcasts the combined wrapper, which every
machine then holds when `finalize` runs. -/
def global_combine (op : R → R → R) (accs : List (Option R)) : Option R :=
  accs.foldl (cmerge op) none

/-- `aggregate_now` (lines 379-446).  `machines` is the local graph of
every machine (index = procid), `parts` the OpenMP index partition used on
each machine.  Returns the value every machine's finalizer receives, and
the post-call registry (accumulator cleared after finalize); a missing key
is the fatal `ASSERT_MSG` (line 381), modelled as `none`. -/
def aggregate_now (op : R → R → R) (machines : List (List (LVert V E)))
    (parts : List (List (List Nat))) (key : String)
    (aggs : List (String × MapReduce V E R)) :
    Option (Option R × List (String × MapReduce V E R)) :=
  match alookup aggs key with
  | none => none
  | some mr =>
    let delivered := global_combine op
      (((machines.zip parts).enum).map
        (fun pe => local_machine_acc op pe.1 pe.2.1 mr pe.2.2))
    some (delivered, aupdate key MapReduce.clear_accumulator aggs)

/-- Single-threaded reference fold of an edge map function over the full
graph: one visit per in-edge of every locally stored vertex of every
machine (each edge is stored at its target exactly once cluster-wide). -/
def ref_edge_fold (op : R → R → R) (mape : E → R)
    (machines : List (List (LVert V E))) : Option R :=
  ((machines.flatten.map (fun lv => lv.in_edges)).flatten).foldl
    (fun a e => cadd op a (mape e)) none

/-- Overwrite the residual accumulator contents of a key's descriptor;
statement device for varying the pre-call state of `aggregate_now`. -/
def set_accumulator (key : String) (a : Option R)
    (aggs : List (String × MapReduce V E R)) :
    List (String × MapReduce V E R) :=
  aupdate key (fun mr => { mr with acc := a }) aggs

/-- `aggregate_periodic` (lines 465-471). -/
def aggregate_periodic (key : String) (seconds : ℚ)
    (periods : List (String × ℚ)) (aggs : List (String × MapReduce V E R)) :
    Bool × List (String × ℚ) :=
  if seconds < 0 then (false, periods)
  else
    match alookup aggs key with
    | none => (false, periods)
    | some _ => (true, upsert key seconds periods)

/-- Modelled from the spec: `mutable_queue<std::string, float>` (its
source file is not part of the sources provided) is a max-priority queue;
the aggregator stores negated fire-times in it to obtain a min-schedule.
`sched_top` returns a maximal-priority entry (the first such one),
`sched_pop` removes exactly that entry, and push is list cons. -/
def sched_top : List (String × ℚ) → Option (String × ℚ)
  | [] => none
  | e :: rest =>
    match sched_top rest with
    | none => some e
    | some b => if e.2 < b.2 then some b else some e

/-- Removal of the entry `sched_top` returns. -/
def sched_pop : List (String × ℚ) → List (String × ℚ)
  | [] => []
  | e :: rest =>
    match sched_top rest with
    | none => rest
    | some b => if e.2 < b.2 then e :: sched_pop rest else rest

/-- A schedule entry is due for the frozen tick time `curtime` when its
fire-time (the negation of its stored priority) is strictly below it:
the loop guard `-schedule.top().second < curtime` of line 744. -/
def due (curtime : ℚ) (e : String × ℚ) : Bool :=
  decide (-e.2 < curtime)

/-- The keys of the due entries of a schedule. -/
def due_keys (curtime : ℚ) (s : List (String × ℚ)) : List String :=
  (s.filter (due curtime)).map Prod.fst

/-- The while-loop of `tick_synchronous` (lines 744-754).  `curtime` is
the frozen broadcast reading; `clk i` is the fresh
`timer::approx_time_seconds()` reading taken (and broadcast from the
coordinator) in iteration `i` to compute the re-arm time.  The calls
`aggregate_now(key)` are recorded in the returned list in call order.
The C++ loop is unbounded; `fuel` bounds the iterations and the theorems
instantiate it so that every terminating C++ execution is reproduced. -/
def tick_synchronous_loop (periods : List (String × ℚ)) (clk : Nat → ℚ)
    (start_time curtime : ℚ) :
    Nat → List (String × ℚ) → Nat → List String × List (String × ℚ)
  | 0, s, _ => ([], s)
  | fuel + 1, s, i =>
    match sched_top s with
    | none => ([], s)
    | some t =>
      if -t.2 < curtime then
        let next_time := clk i + periodOf periods t.1 - start_time
        let r := tick_synchronous_loop periods clk start_time curtime fuel
          ((t.1, -next_time) :: sched_pop s) (i + 1)
        (t.1 :: r.1, r.2)
      else ([], s)

/-- `tick_synchronous` (lines 737-755): freeze `now` as the coordinator's
broadcast reading `clk 0 - start_time`, then drain the due entries.  The
schedule length bounds the iterations of any terminating execution since
every iteration pops one due entry and pushes one entry that is not due
under a monotone clock. -/
def tick_synchronous (periods : List (String × ℚ)) (clk : Nat → ℚ)
    (start_time : ℚ) (s : List (String × ℚ)) :
    List String × List (String × ℚ) :=
  tick_synchronous_loop periods clk start_time (clk 0 - start_time) s.length s 1

/-- `tick_asynchronous` (lines 545-564): with the schedule try-lock
outcome as a parameter, pop and return the top key when its fire-time is
strictly past. -/
def tick_asynchronous (lock_acquired : Bool) (clk0 start_time : ℚ)
    (s : List (String × ℚ)) : Option String × List (String × ℚ) :=
  if lock_acquired then
    match sched_top s with
    | none => (none, s)
    | some t =>
      if -t.2 < clk0 - start_time then (some t.1, sched_pop s) else (none, s)
  else (none, s)

/-- `async_aggregator_state` (lines 254-264).  The root and per-thread
reducers are clones of the registry descriptor, so only their accumulator
contents are per-state data; the countdowns are atomic ints. -/
structure async_aggregator_state (R : Type) where
  root_reducer : Option R
  per_thread_aggregation : List (Option R)
  local_count_down : Int
  distributed_count_down : Int
  deriving DecidableEq

/-- The aggregator state touched by the asynchronous driver on one
machine, together with the per-machine schedules that the reschedule
broadcast of `decrement_finalize_counter` pushes into
(`schedules.length = numprocs`, index = procid). -/
structure AsyncSys (R : Type) where
  async_state : List (String × async_aggregator_state R)
  schedules : List (List (String × ℚ))
  deriving DecidableEq

/-- The index set visited by `for (i = cpuid; i < n; i += ncpus)`. -/
def stride_idxs (cpuid ncpus n : Nat) : List Nat :=
  (List.range n).filter (fun i => decide (cpuid ≤ i ∧ (i - cpuid) % ncpus = 0))

/-- The per-thread fold of `tick_asynchronous_compute` (lines 582-597):
unlike the synchronous path, BOTH the vertex branch (with the owner
filter) and the edge branch stride the local vertex indices by `ncpus`.
`acc0` is the current contents of `per_thread_aggregation[cpuid]`. -/
def async_thread_fold (op : R → R → R) (mr : MapReduce V E R)
    (procid ncpus : Nat) (g : List (LVert V E)) (cpuid : Nat)
    (acc0 : Option R) : Option R :=
  if mr.vertex_map then
    (stride_idxs cpuid ncpus g.length).foldl (fun a i =>
      match g.get? i with
      | some lvertex =>
        if lvertex.owner = procid then
          cadd op a (mr.map_vtx_function lvertex.data)
        else a
      | none => a) acc0
  else
    (stride_idxs cpuid ncpus g.length).foldl (fun a i =>
      match g.get? i with
      | some lvertex =>
        lvertex.in_edges.foldl
          (fun b e => cadd op b (mr.map_edge_function e)) a
      | none => a) acc0

/-- `rpc_schedule_key` (lines 723-727): push the re-arm entry. -/
def rpc_schedule_key (key : String) (next_time : ℚ)
    (sch : List (String × ℚ)) : List (String × ℚ) :=
  (key, -next_time) :: sch

/-- `decrement_finalize_counter` (lines 697-718).  `tnow` is the
`timer::approx_time_seconds()` reading taken on reaching zero; the
countdown is rearmed to `numprocs` and the coordinator's local
`rpc_schedule_key` call plus the `remote_call`s to machines
`1..numprocs-1` push the entry onto every machine's schedule.  A missing
key is the fatal `ASSERT_MSG`, modelled as `none`. -/
def decrement_finalize_counter (numprocs : Nat) (periods : List (String × ℚ))
    (start_time tnow : ℚ) (key : String) (sys : AsyncSys R) :
    Option (AsyncSys R) :=
  match alookup sys.async_state key with
  | none => none
  | some st =>
    let countdown_val := st.distributed_count_down - 1
    if countdown_val = 0 then
      let next_time := tnow + periodOf periods key - start_time
      let ast := aupdate key
        (fun s => { s with distributed_count_down := (numprocs : Int) })
        sys.async_state
      some { async_state := ast,
             schedules := sys.schedules.map (rpc_schedule_key key next_time) }
    else
      let ast := aupdate key
        (fun s => { s with distributed_count_down := countdown_val })
        sys.async_state
      some { sys with async_state := ast }

/-- `decrement_distributed_counter` (lines 649-676).  Runs only on the
coordinator (`ASSERT_EQ(rmi.procid(), 0)`); the asserts of lines 660-661
bound the decremented value.  On reaching zero the countdown is rearmed
for the finalize phase, the finalize dispatch is issued (the
`rpc_perform_finalize` remote calls act on the other machines' root
reducers, outside this machine's state), the root reducer is finalized
and cleared, and the finalize countdown is decremented once. -/
def decrement_distributed_counter (procid numprocs : Nat)
    (periods : List (String × ℚ)) (start_time tnow : ℚ) (key : String)
    (sys : AsyncSys R) : Option (AsyncSys R) :=
  if procid = 0 then
    match alookup sys.async_state key with
    | none => none
    | some st =>
      let countdown_val := st.distributed_count_down - 1
      if countdown_val ≤ (numprocs : Int) ∧ 0 ≤ countdown_val then
        if countdown_val = 0 then
          let ast := aupdate key
            (fun s => { s with distributed_count_down := (numprocs : Int),
                               root_reducer := none })
            sys.async_state
          decrement_finalize_counter numprocs periods start_time tnow key
            { sys with async_state := ast }
        else
          let ast := aupdate key
            (fun s => { s with distributed_count_down := countdown_val })
            sys.async_state
          some { sys with async_state := ast }
      else none
  else none

/-- `rpc_key_merge` (lines 634-641): merge a peer machine's shipped
accumulator into the root reducer, then decrement the distributed
countdown.  A missing key is the fatal `ASSERT_MSG`. -/
def rpc_key_merge (op : R → R → R) (procid numprocs : Nat)
    (periods : List (String × ℚ)) (start_time tnow : ℚ) (key : String)
    (acc : Option R) (sys : AsyncSys R) : Option (AsyncSys R) :=
  match alookup sys.async_state key with
  | none => none
  | some _ =>
    let ast := aupdate key
      (fun s => { s with root_reducer := cmerge op s.root_reducer acc })
      sys.async_state
    decrement_distributed_counter procid numprocs periods start_time tnow key
      { sys with async_state := ast }

/-- `tick_asynchronous_compute` (lines 573-627).  `mr` is the registry
descriptor for `key` (its clones share its kind and map functions).  The
fatal asserts (missing key line 577, cpuid bound line 578, countdown
bounds lines 601-602) are modelled as `none`.  When the local countdown
drains, the per-thread clones are cleared and the countdown rearmed; a
non-coordinator then ships its root accumulator to machine 0 by
`remote_call` (the shipped snapshot acts on machine 0's state, outside
this machine's) and clears it, while the coordinator runs
`decrement_distributed_counter` inline. -/
def tick_asynchronous_compute (op : R → R → R) (mr : MapReduce V E R)
    (procid numprocs ncpus : Nat) (g : List (LVert V E))
    (periods : List (String × ℚ)) (start_time tnow : ℚ)
    (cpuid : Nat) (key : String) (sys : AsyncSys R) : Option (AsyncSys R) :=
  match alookup sys.async_state key with
  | none => none
  | some st =>
    if cpuid < st.per_thread_aggregation.length then
      let localmr := async_thread_fold op mr procid ncpus g cpuid
        ((st.per_thread_aggregation.get? cpuid).getD none)
      let root1 := cmerge op st.root_reducer localmr
      let countdown_val := st.local_count_down - 1
      if countdown_val < (ncpus : Int) ∧ 0 ≤ countdown_val then
        if countdown_val = 0 then
          let st1 : async_aggregator_state R :=
            { root_reducer := if procid ≠ 0 then none else root1,
              per_thread_aggregation :=
                st.per_thread_aggregation.map (fun _ => (none : Option R)),
              local_count_down := (ncpus : Int),
              distributed_count_down := st.distributed_count_down }
          let sys1 : AsyncSys R :=
            { sys with async_state := aupdate key (fun _ => st1) sys.async_state }
          if procid ≠ 0 then some sys1
          else decrement_distributed_counter procid numprocs periods start_time
            tnow key sys1
        else
          let st2 : async_aggregator_state R :=
            { root_reducer := root1,
              per_thread_aggregation :=
                st.per_thread_aggregation.set cpuid localmr,
              local_count_down := countdown_val,
              distributed_count_down := st.distributed_count_down }
          some { sys with async_state := aupdate key (fun _ => st2) sys.async_state }
      else none
    else none

/-- The asynchronous-driver entry points the invariant claim quantifies
over: a worker's `tick_asynchronous_compute(cpuid, key)`, a peer's
`rpc_key_merge(key, acc)` arriving at the coordinator, and a
`decrement_distributed_counter(key)` countdown step. -/
inductive AsyncOp (R : Type) where
  | compute (cpuid : Nat) (key : String)
  | merge (key : String) (acc : Option R)
  | decdist (key : String)

/-- One asynchronous-driver step; `clk i` is the clock reading available
to a reschedule performed during step `i`. -/
def async_step (op : R → R → R) (mr : MapReduce V E R)
    (procid numprocs ncpus : Nat) (g : List (LVert V E))
    (periods : List (String × ℚ)) (start_time : ℚ) (clk : Nat → ℚ)
    (i : Nat) : AsyncOp R → AsyncSys R → Option (AsyncSys R)
  | AsyncOp.compute cpuid key, sys =>
    tick_asynchronous_compute op mr procid numprocs ncpus g periods start_time
      (clk i) cpuid key sys
  | AsyncOp.merge key acc, sys =>
    rpc_key_merge op procid numprocs periods start_time (clk i) key acc sys
  | AsyncOp.decdist key, sys =>
    decrement_distributed_counter procid numprocs periods start_time (clk i)
      key sys

/-- A sequence of asynchronous-driver steps, failing as soon as one step
hits a fatal assertion. -/
def async_run (op : R → R → R) (mr : MapReduce V E R)
    (procid numprocs ncpus : Nat) (g : List (LVert V E))
    (periods : List (String × ℚ)) (start_time : ℚ) (clk : Nat → ℚ) :
    List (AsyncOp R) → Nat → AsyncSys R → Option (AsyncSys R)
  | [], _, sys => some sys
  | o :: rest, i, sys =>
    match async_step op mr procid numprocs ncpus g periods start_time clk i
        o sys with
    | none => none
    | some sys1 =>
      async_run op mr procid numprocs ncpus g periods start_time clk rest
        (i + 1) sys1

/-- The asynchronous-state initialization of `start` (lines 512-528): for
every periodic key, local countdown `ncpus`, distributed countdown
`numprocs`, `ncpus` empty per-thread clones and an empty root clone, all
cloned from the registry entry.  A periodic key absent from the registry
makes C++ call `clone_empty` through the null pointer that
`aggregators[key]` default-inserts — undefined behaviour, modelled as
`none`. -/
def start_async_state (numprocs ncpus : Nat)
    (aggs : List (String × MapReduce V E R)) :
    List (String × ℚ) → List (String × async_aggregator_state R) →
    Option (List (String × async_aggregator_state R))
  | [], ast => some ast
  | e :: rest, ast =>
    match alookup aggs e.1 with
    | none => none
    | some _ =>
      start_async_state numprocs ncpus aggs rest
        (upsert e.1
          { root_reducer := none,
            per_thread_aggregation := List.replicate ncpus none,
            local_count_down := (ncpus : Int),
            distributed_count_down := (numprocs : Int) } ast)

/-- The mutable state of one machine's `distributed_aggregator`
(lines 251-274): registry, period table, schedule, asynchronous state,
start time and engine thread count. -/
structure DistributedAggregator (V E R : Type) where
  aggregators : List (String × MapReduce V E R)
  aggregate_period : List (String × ℚ)
  schedule : List (String × ℚ)
  async_state : List (String × async_aggregator_state R)
  start_time : ℚ
  ncpus : Nat

/-- `start` (lines 497-529): clear and re-arm the schedule from the
period table (pushing `(key, -period)` for every periodic key), record
the start time `t` and the thread count `n`, and when `n > 0` materialize
the asynchronous state. -/
def start (numprocs n : Nat) (t : ℚ) (s : DistributedAggregator V E R) :
    Option (DistributedAggregator V E R) :=
  let sched := s.aggregate_period.foldl (fun sch e => (e.1, -e.2) :: sch) []
  if 0 < n then
    match start_async_state numprocs n s.aggregators s.aggregate_period
        s.async_state with
    | none => none
    | some ast =>
      some { s with schedule := sched, start_time := t, ncpus := n,
                    async_state := ast }
  else
    some { s with schedule := sched, start_time := t, ncpus := n }

/-- `stop` (lines 761-788): clear the schedule, clear every registered
descriptor's accumulator, and tear down (delete and erase) the whole
asynchronous state. -/
def stop (s : DistributedAggregator V E R) : DistributedAggregator V E R :=
  { s with schedule := [],
           aggregators := s.aggregators.map
             (fun e => (e.1, e.2.clear_accumulator)),
           async_state := [] }

/-- The state of a freshly constructed aggregator on which the same
registrations and `aggregate_periodic` calls have been made: the same
registry with the empty accumulators registration creates, the same
period table, empty schedule and asynchronous state, `ncpus` 0 (the
constructor, line 282; `start_time` is uninitialized before `start` and
set here to 0). -/
def initial_state (aggs : List (String × MapReduce V E R))
    (periods : List (String × ℚ)) : DistributedAggregator V E R :=
  { aggregators := aggs.map (fun e => (e.1, e.2.clear_accumulator)),
    aggregate_period := periods,
    schedule := [],
    async_state := [],
    start_time := 0,
    ncpus := 0 }

/-- `get_all_periodic_keys` (lines 791-800). -/
def get_all_periodic_keys (s : DistributedAggregator V E R) : List String :=
  s.aggregate_period.map Prod.fst

/-- The per-key asynchronous-state invariant of the spec (section 3):
local countdown in [0, ncpus], distributed countdown in [0, numprocs],
exactly ncpus per-thread accumulators. -/
def state_inv (ncpus numprocs : Nat) (st : async_aggregator_state R) : Prop :=
  0 ≤ st.local_count_down ∧ st.local_count_down ≤ (ncpus : Int) ∧
  0 ≤ st.distributed_count_down ∧
  st.distributed_count_down ≤ (numprocs : Int) ∧
  st.per_thread_aggregation.length = ncpus

/-- The invariant for every key holding asynchronous state. -/
def sys_inv (ncpus numprocs : Nat) (sys : AsyncSys R) : Prop :=
  ∀ e ∈ sys.async_state, state_inv ncpus numprocs e.2

/-- A concrete vertex descriptor used by witness statements. -/
def mrW : MapReduce Unit Unit Nat :=
  { vertex_map := true,
    map_vtx_function := fun _ => 0,
    map_edge_function := fun _ => 0,
    acc := none }

/-- A concrete one-entry registry used by witness statements. -/
def regW : List (String × MapReduce Unit Unit Nat) := [("x", mrW)]

/-- A concrete empty asynchronous system used by witness statements. -/
def sysEmpty : AsyncSys Nat := { async_state := [], schedules := [] }

/-- A concrete per-key asynchronous state with a drained finalize
countdown, used by witness statements. -/
def stW5 : async_aggregator_state Nat :=
  { root_reducer := none, per_thread_aggregation := [],
    local_count_down := 1, distributed_count_down := 1 }

/-- A concrete one-machine asynchronous system holding `stW5` for key
"k", used by witness statements. -/
def sysW5 : AsyncSys Nat := { async_state := [("k", stW5)], schedules := [[]] }

/-- The asynchronous state `start(1)` materializes for the single
periodic key "x" on a 1-machine, 1-thread configuration. -/
def astW : List (String × async_aggregator_state Nat) :=
  [("x", { root_reducer := none, per_thread_aggregation := [none],
           local_count_down := 1, distributed_count_down := 1 })]

/-- The corresponding initial asynchronous system. -/
def sysW6 : AsyncSys Nat := { async_state := astW, schedules := List.replicate 1 [] }

/-- The asynchronous system after one complete compute/merge/finalize
round of key "x" on `sysW6` (all countdowns rearmed, key rescheduled). -/
def sysW6f : AsyncSys Nat :=
  { async_state := astW, schedules := [[("x", -((0 : ℚ) + 0 - 0))]] }

/-- A concrete running aggregator (one registered key "x", periodic with
period 0, armed schedule and asynchronous state, mid-run residue) used by
witness statements. -/
def daggW : DistributedAggregator Unit Unit Nat :=
  { aggregators := regW,
    aggregate_period := [("x", 0)],
    schedule := [("x", 0)],
    async_state := astW,
    start_time := 5,
    ncpus := 1 }

/-! ### Helper lemmas about strings and association lists -/

theorem length_eq_zero_string {s : String} : s.length = 0 ↔ s = "" := by
  rw [String.ext_iff]
  cases s with
  | mk data =>
    show data.length = 0 ↔ data = "".data
    rw [show "".data = [] from rfl]
    exact List.length_eq_zero

theorem alookup_aupdate {α : Type} (k : String) (f : α → α)
    (l : List (String × α)) :
    alookup (aupdate k f l) k = (alookup l k).map f := by
  induction l with
  | nil => rfl
  | cons e rest ih =>
    by_cases h : e.1 = k
    · simp [alookup, aupdate, h]
    · have hcons : aupdate k f (e :: rest) = e :: aupdate k f rest := by
        simp [aupdate, h]
      rw [hcons]
      simp [alookup, h, ih]

theorem alookup_mem {α : Type} {k : String} {v : α} {l : List (String × α)}
    (h : alookup l k = some v) : (k, v) ∈ l := by
  induction l with
  | nil => simp [alookup] at h
  | cons e rest ih =>
    by_cases he : e.1 = k
    · simp only [alookup, he, if_pos] at h
      injection h with h
      subst h
      subst he
      exact List.mem_cons_self e rest
    · simp only [alookup, he, if_neg, if_false] at h
      exact List.mem_cons_of_mem e (ih h)

theorem aupdate_congr {α : Type} {k : String} {f g : α → α}
    (l : List (String × α)) (h : ∀ x, f x = g x) :
    aupdate k f l = aupdate k g l := by
  unfold aupdate
  apply List.map_congr_left
  intro e _
  by_cases he : e.1 = k <;> simp [he, h]

theorem aupdate_aupdate {α : Type} (k : String) (f g : α → α)
    (l : List (String × α)) :
    aupdate k f (aupdate k g l) = aupdate k (fun x => f (g x)) l := by
  unfold aupdate
  rw [List.map_map]
  apply List.map_congr_left
  intro e _
  by_cases he : e.1 = k <;> simp [he, Function.comp]

theorem mem_aupdate {α : Type} {k : String} {f : α → α}
    {l : List (String × α)} {e : String × α} (he : e ∈ aupdate k f l) :
    e ∈ l ∨ ∃ x, (k, x) ∈ l ∧ e = (k, f x) := by
  unfold aupdate at he
  rcases List.mem_map.mp he with ⟨a, ha, rfl⟩
  by_cases hk : a.1 = k
  · right
    refine ⟨a.2, ?_, by simp [hk]⟩
    rw [← hk]
    exact ha
  · left
    simp [hk, ha]

theorem alookup_aupdate_self {α : Type} {k : String} {v : α} (f : α → α)
    {l : List (String × α)} (h : alookup l k = some v) :
    alookup (aupdate k f l) k = some (f v) := by
  rw [alookup_aupdate, h]
  rfl

/-! ### Claim C2: registration succeeds iff the key is non-empty and
fresh, and a failed registration leaves the registry unchanged -/

/-- Claim C2: `add_vertex_aggregator` and `add_edge_aggregator` return
true exactly when the key is a non-empty string not already registered,
and whenever they return false the registry is returned unchanged. -/
theorem add_aggregator_key_rules {V E R : Type} [Inhabited R] (key : String)
    (mapv : V → R) (mape : E → R) (aggs : List (String × MapReduce V E R)) :
    ((add_vertex_aggregator key mapv aggs).1 = true ↔
      key ≠ "" ∧ alookup aggs key = none) ∧
    ((add_vertex_aggregator key mapv aggs).1 = false →
      (add_vertex_aggregator key mapv aggs).2 = aggs) ∧
    ((add_edge_aggregator key mape aggs).1 = true ↔
      key ≠ "" ∧ alookup aggs key = none) ∧
    ((add_edge_aggregator key mape aggs).1 = false →
      (add_edge_aggregator key mape aggs).2 = aggs) := by
  unfold add_vertex_aggregator add_edge_aggregator
  by_cases hlen : key.length = 0
  · have hkey : key = "" := length_eq_zero_string.mp hlen
    simp [hlen, hkey]
  · have hkey : ¬ key = "" := fun h => hlen (length_eq_zero_string.mpr h)
    cases halook : alookup aggs key with
    | none => simp [hlen, hkey, halook]
    | some mr => simp [hlen, hkey, halook]

/-- Claim C2 witness: the rules at a concrete key and registry. -/
theorem add_aggregator_key_rules_witness :
    ((add_vertex_aggregator "k" (fun _ : Unit => (0 : Nat)) regW).1 = true ↔
      ("k" : String) ≠ "" ∧ alookup regW "k" = none) ∧
    ((add_vertex_aggregator "k" (fun _ : Unit => (0 : Nat)) regW).1 = false →
      (add_vertex_aggregator "k" (fun _ : Unit => (0 : Nat)) regW).2 = regW) ∧
    ((add_edge_aggregator "k" (fun _ : Unit => (1 : Nat)) regW).1 = true ↔
      ("k" : String) ≠ "" ∧ alookup regW "k" = none) ∧
    ((add_edge_aggregator "k" (fun _ : Unit => (1 : Nat)) regW).1 = false →
      (add_edge_aggregator "k" (fun _ : Unit => (1 : Nat)) regW).2 = regW) :=
  add_aggregator_key_rules "k" (fun _ : Unit => (0 : Nat))
    (fun _ : Unit => (1 : Nat)) regW

/-! ### Claim C7: unknown keys hit the fatal assertions -/

/-- Claim C7: `aggregate_now` called with a key absent from the registry,
and `tick_asynchronous_compute` called with a key that has no
asynchronous state, both hit their fatal `ASSERT_MSG` (modelled as
`none`) instead of returning normally. -/
theorem unknown_key_is_fatal {V E R : Type} (op : R → R → R)
    (machines : List (List (LVert V E))) (parts : List (List (List Nat)))
    (key : String) (aggs : List (String × MapReduce V E R))
    (mr : MapReduce V E R) (procid numprocs ncpus : Nat)
    (g : List (LVert V E)) (periods : List (String × ℚ))
    (start_time tnow : ℚ) (cpuid : Nat) (sys : AsyncSys R) :
    (alookup aggs key = none →
      aggregate_now op machines parts key aggs = none) ∧
    (alookup sys.async_state key = none →
      tick_asynchronous_compute op mr procid numprocs ncpus g periods
        start_time tnow cpuid key sys = none) := by
  constructor
  · intro h
    unfold aggregate_now
    rw [h]
  · intro h
    unfold tick_asynchronous_compute
    rw [h]

/-- Claim C7 witness: the assertions fire on concrete unknown-key calls. -/
theorem unknown_key_is_fatal_witness :
    (alookup regW "k" = none →
      aggregate_now (fun a b : Nat => a + b) [] [] "k" regW = none) ∧
    (alookup sysEmpty.async_state "k" = none →
      tick_asynchronous_compute (fun a b : Nat => a + b) mrW
        0 1 1 [] [] 0 0 0 "k" sysEmpty = none) :=
  unknown_key_is_fatal (fun a b : Nat => a + b) [] [] "k" regW
    mrW 0 1 1 [] [] 0 0 0 sysEmpty

/-! ### Claim C10: the delivered value is independent of the residual
accumulator state -/

theorem local_machine_acc_set_acc {V E R : Type} (op : R → R → R)
    (procid : Nat) (g : List (LVert V E)) (mr : MapReduce V E R)
    (a : Option R) (parts : List (List Nat)) :
    local_machine_acc op procid g { mr with acc := a } parts =
      local_machine_acc op procid g mr parts := rfl

/-- Claim C10: `aggregate_now` clears the accumulator before the parallel
fold (line 386) and again after finalize (line 443), so two invocations
that differ only in the residual accumulator contents of the key return
the same delivered value and the same post-call registry. -/
theorem aggregate_now_residual_independent {V E R : Type} (op : R → R → R)
    (machines : List (List (LVert V E))) (parts : List (List (List Nat)))
    (key : String) (aggs : List (String × MapReduce V E R))
    (a1 a2 : Option R) :
    aggregate_now op machines parts key (set_accumulator key a1 aggs) =
      aggregate_now op machines parts key (set_accumulator key a2 aggs) := by
  unfold aggregate_now set_accumulator
  rw [alookup_aupdate, alookup_aupdate]
  cases halook : alookup aggs key with
  | none => rfl
  | some mr =>
    simp only [Option.map_some']
    have hreg : ∀ b : Option R,
        aupdate key MapReduce.clear_accumulator
            (aupdate key (fun mr => { mr with acc := b }) aggs) =
          aupdate key MapReduce.clear_accumulator aggs := by
      intro b
      rw [aupdate_aupdate]
      exact aupdate_congr aggs (fun x => rfl)
    rw [hreg a1, hreg a2]
    have hlocal : ∀ b : Option R,
        (((machines.zip parts).enum).map
          (fun pe => local_machine_acc op pe.1 pe.2.1
            { mr with acc := b } pe.2.2)) =
        (((machines.zip parts).enum).map
          (fun pe => local_machine_acc op pe.1 pe.2.1 mr pe.2.2)) := by
      intro b
      apply List.map_congr_left
      intro pe _
      exact local_machine_acc_set_acc op pe.1 pe.2.1 mr b pe.2.2
    rw [hlocal a1, hlocal a2]

/-! ### Claim C1: the delivered value versus the single-threaded fold -/

/-- Claim C1 (code-bug evaluation): the edge branch of `aggregate_now`
(lines 405-412) sits inside the OpenMP parallel region but, unlike the
vertex branch (line 395), carries no `omp for`, so every thread scans all
local in-edges.  On one machine with two OpenMP threads and a single edge
mapped to 1, the value delivered to the finalizer is 2 while the
single-threaded fold over the graph's edges is 1 — the claimed equality
"regardless of thread count" fails on the code. -/
theorem aggregate_now_edge_thread_overcount :
    (aggregate_now (fun a b : Nat => a + b)
        [[LVert.mk 0 () [()]]] [[[0], []]] "e"
        [("e", MapReduce.mk false (fun _ => 0) (fun _ => 1) none)]).map
      Prod.fst = some (some 2) ∧
    ref_edge_fold (fun a b : Nat => a + b) (fun _ => 1)
      [[LVert.mk 0 () [()]]] = some 1 :=
  ⟨rfl, rfl⟩

/-! ### Schedule lemmas: `sched_top` is maximal and `sched_pop` removes
exactly the returned entry -/

theorem sched_top_eq_none {s : List (String × ℚ)} (h : sched_top s = none) :
    s = [] := by
  cases s with
  | nil => rfl
  | cons e rest =>
    exfalso
    cases htop : sched_top rest with
    | none => simp [sched_top, htop] at h
    | some b =>
      simp only [sched_top, htop] at h
      by_cases hlt : e.2 < b.2 <;> simp [hlt] at h

theorem sched_top_max : ∀ {s : List (String × ℚ)} {t : String × ℚ},
    sched_top s = some t → ∀ e ∈ s, e.2 ≤ t.2 := by
  intro s
  induction s with
  | nil => intro t h; simp [sched_top] at h
  | cons a rest ih =>
    intro t h e he
    cases htop : sched_top rest with
    | none =>
      have hrest := sched_top_eq_none htop
      subst hrest
      simp only [sched_top] at h
      injection h with h
      subst h
      rcases List.mem_cons.mp he with h1 | h1
      · subst h1; exact le_refl _
      · simp at h1
    | some b =>
      simp only [sched_top, htop] at h
      by_cases hlt : a.2 < b.2
      · rw [if_pos hlt] at h
        injection h with h
        subst h
        rcases List.mem_cons.mp he with h1 | h1
        · subst h1; exact le_of_lt hlt
        · exact ih htop e h1
      · rw [if_neg hlt] at h
        injection h with h
        subst h
        rcases List.mem_cons.mp he with h1 | h1
        · subst h1; exact le_refl _
        · exact le_trans (ih htop e h1) (le_of_not_lt hlt)

theorem sched_pop_perm : ∀ {s : List (String × ℚ)} {t : String × ℚ},
    sched_top s = some t → s.Perm (t :: sched_pop s) := by
  intro s
  induction s with
  | nil => intro t h; simp [sched_top] at h
  | cons a rest ih =>
    intro t h
    cases htop : sched_top rest with
    | none =>
      have hrest := sched_top_eq_none htop
      subst hrest
      simp only [sched_top] at h
      injection h with h
      subst h
      simp [sched_pop, sched_top]
    | some b =>
      simp only [sched_top, htop] at h
      by_cases hlt : a.2 < b.2
      · rw [if_pos hlt] at h
        injection h with h
        subst h
        have hpop : sched_pop (a :: rest) = a :: sched_pop rest := by
          simp only [sched_pop, htop]
          rw [if_pos hlt]
        rw [hpop]
        exact ((ih htop).cons a).trans (List.Perm.swap b a (sched_pop rest))
      · rw [if_neg hlt] at h
        injection h with h
        subst h
        have hpop : sched_pop (a :: rest) = rest := by
          simp only [sched_pop, htop]
          rw [if_neg hlt]
        rw [hpop]

/-- The main property of the synchronous tick loop: when every re-armed
fire-time is at or past the frozen `curtime` (monotone clock, non-negative
periods), a run with enough fuel fires exactly the keys of the entries
whose fire-time is strictly below `curtime`. -/
theorem tick_synchronous_loop_fires (periods : List (String × ℚ))
    (clk : Nat → ℚ) (start_time curtime : ℚ)
    (Hpush : ∀ (i : Nat) (k : String),
      curtime ≤ clk i + periodOf periods k - start_time) :
    ∀ (fuel : Nat) (s : List (String × ℚ)) (i : Nat),
      (s.filter (due curtime)).length ≤ fuel →
      (tick_synchronous_loop periods clk start_time curtime fuel s i).1.Perm
        (due_keys curtime s) := by
  intro fuel
  induction fuel with
  | zero =>
    intro s i hlen
    have hnil : s.filter (due curtime) = [] :=
      List.length_eq_zero.mp (Nat.le_zero.mp hlen)
    simp [tick_synchronous_loop, due_keys, hnil]
  | succ fuel ih =>
    intro s i hlen
    cases htop : sched_top s with
    | none =>
      have hs := sched_top_eq_none htop
      subst hs
      simp [tick_synchronous_loop, sched_top, due_keys]
    | some t =>
      by_cases hd : -t.2 < curtime
      · have hperm := sched_pop_perm htop
        have ht_due : due curtime t = true := by simp [due, hd]
        have hfil : (s.filter (due curtime)).Perm
            (t :: (sched_pop s).filter (due curtime)) := by
          have h1 := hperm.filter (due curtime)
          simpa [List.filter_cons, ht_due] using h1
        have hnotdue : due curtime
            (t.1, -(clk i + periodOf periods t.1 - start_time)) = false := by
          simp only [due, decide_eq_false_iff_not, neg_neg, not_lt]
          exact Hpush i t.1
        have hfil2 : ((t.1, -(clk i + periodOf periods t.1 - start_time)) ::
            sched_pop s).filter (due curtime)
            = (sched_pop s).filter (due curtime) := by
          rw [List.filter_cons, hnotdue]
          simp
        have hlen2 : (((t.1, -(clk i + periodOf periods t.1 - start_time)) ::
            sched_pop s).filter (due curtime)).length ≤ fuel := by
          have hc := hfil.length_eq
          rw [hfil2]
          simp only [List.length_cons] at hc
          omega
        have hrec := ih ((t.1, -(clk i + periodOf periods t.1 - start_time)) ::
          sched_pop s) (i + 1) hlen2
        have hrec2 : (tick_synchronous_loop periods clk start_time curtime fuel
            ((t.1, -(clk i + periodOf periods t.1 - start_time)) ::
              sched_pop s) (i + 1)).1.Perm
            (due_keys curtime (sched_pop s)) := by
          have h3 : due_keys curtime
              ((t.1, -(clk i + periodOf periods t.1 - start_time)) ::
                sched_pop s)
              = due_keys curtime (sched_pop s) := by
            unfold due_keys
            rw [hfil2]
          rw [← h3]
          exact hrec
        have hkeys : (due_keys curtime s).Perm
            (t.1 :: due_keys curtime (sched_pop s)) := by
          unfold due_keys
          have h4 := hfil.map Prod.fst
          simpa using h4
        simp only [tick_synchronous_loop, htop]
        rw [if_pos hd]
        exact ((hrec2.cons t.1).trans hkeys.symm)
      · have hnil : s.filter (due curtime) = [] := by
          rw [List.filter_eq_nil_iff]
          intro e he
          have hle := sched_top_max htop e he
          simp only [due, decide_eq_true_eq]
          intro hcon
          exact hd (lt_of_le_of_lt (neg_le_neg hle) hcon)
        simp only [tick_synchronous_loop, htop]
        rw [if_neg hd]
        simp [due_keys, hnil]

/-! ### Claim C3: which keys a synchronous tick fires -/

/-- Claim C3 counterexample: the loop guard of line 744 is a strict
comparison, so a scheduled key whose fire-time EQUALS the frozen now
(here fire-time 1, now 1) is not popped and not aggregated, refuting the
claimed "fire-time ≤ now" rule. -/
theorem tick_synchronous_boundary_key_not_fired :
    -(("k", (-1 : ℚ)).2) ≤ (fun _ : Nat => (1 : ℚ)) 0 - 0 ∧
    ("k", (-1 : ℚ)) ∈ [("k", (-1 : ℚ))] ∧
    (tick_synchronous [] (fun _ : Nat => (1 : ℚ)) 0
      [("k", (-1 : ℚ))]).1 = [] := by
  refine ⟨by norm_num, by simp, ?_⟩
  norm_num [tick_synchronous, tick_synchronous_loop, sched_top]

/-- Claim C3 (amended): under a monotone clock and non-negative periods,
a single `tick_synchronous()` call runs the full aggregation for exactly
those scheduled keys whose fire-time is STRICTLY BELOW the tick's frozen
now (the coordinator reading broadcast once at the start of the tick); in
particular a key with period zero is due on every tick whose frozen now
strictly exceeds the time at which it was re-armed. -/
theorem tick_synchronous_fires_exactly_due (periods : List (String × ℚ))
    (clk : Nat → ℚ) (start_time : ℚ) (s : List (String × ℚ))
    (Hmono : ∀ i, clk 0 ≤ clk i) (Hper : ∀ k, 0 ≤ periodOf periods k) :
    (tick_synchronous periods clk start_time s).1.Perm
      (due_keys (clk 0 - start_time) s) := by
  unfold tick_synchronous
  apply tick_synchronous_loop_fires
  · intro i k
    have h1 := Hmono i
    have h2 := Hper k
    linarith
  · exact List.length_filter_le _ _

/-- Claim C3 witness: a tick at frozen now 2 over fire-times 1 and 3
fires exactly the keys strictly due. -/
theorem tick_synchronous_fires_exactly_due_witness :
    (∀ i : Nat, (fun _ : Nat => (2 : ℚ)) 0 ≤ (fun _ : Nat => (2 : ℚ)) i) ∧
    (∀ k : String, 0 ≤ periodOf [] k) ∧
    (tick_synchronous [] (fun _ : Nat => (2 : ℚ)) 0
        [("a", -1), ("b", -3)]).1.Perm
      (due_keys ((fun _ : Nat => (2 : ℚ)) 0 - 0) [("a", -1), ("b", -3)]) :=
  ⟨fun _ => le_refl _, fun _ => le_refl _,
    tick_synchronous_fires_exactly_due [] (fun _ => 2) 0
      [("a", -1), ("b", -3)] (fun _ => le_refl _) (fun _ => le_refl _)⟩

/-! ### Claim C4: a synchronous tick fires each key at most once -/

/-- Claim C4: under a monotone clock and non-negative periods, a single
`tick_synchronous()` invocation pops and aggregates every key at most
once, however far the frozen now is past the key's fire-time: the re-armed
entry is never due within the same tick because now is frozen. -/
theorem tick_synchronous_key_at_most_once (periods : List (String × ℚ))
    (clk : Nat → ℚ) (start_time : ℚ) (s : List (String × ℚ)) (key : String)
    (Hmono : ∀ i, clk 0 ≤ clk i) (Hper : ∀ k, 0 ≤ periodOf periods k)
    (Hnodup : (s.map Prod.fst).Nodup) :
    (tick_synchronous periods clk start_time s).1.count key ≤ 1 := by
  have hperm : (tick_synchronous periods clk start_time s).1.Perm
      (due_keys (clk 0 - start_time) s) := by
    unfold tick_synchronous
    apply tick_synchronous_loop_fires
    · intro i k
      have h1 := Hmono i
      have h2 := Hper k
      linarith
    · exact List.length_filter_le _ _
  rw [hperm.count_eq key]
  have hsub : List.Sublist (due_keys (clk 0 - start_time) s)
      (s.map Prod.fst) := by
    unfold due_keys
    exact (List.filter_sublist s).map Prod.fst
  exact le_trans (hsub.count_le key)
    (List.nodup_iff_count_le_one.mp Hnodup key)

/-- Claim C4 witness: key "a" with fire-time 1 is fired exactly once by a
tick whose frozen now (2) is far past it. -/
theorem tick_synchronous_key_at_most_once_witness :
    (∀ i : Nat, (fun _ : Nat => (2 : ℚ)) 0 ≤ (fun _ : Nat => (2 : ℚ)) i) ∧
    (∀ k : String, 0 ≤ periodOf [] k) ∧
    ([("a", (-1 : ℚ)), ("b", -3)].map Prod.fst).Nodup ∧
    (tick_synchronous [] (fun _ : Nat => (2 : ℚ)) 0
      [("a", -1), ("b", -3)]).1.count "a" ≤ 1 :=
  ⟨fun _ => le_refl _, fun _ => le_refl _, by decide,
    tick_synchronous_key_at_most_once [] (fun _ => 2) 0
      [("a", -1), ("b", -3)] "a" (fun _ => le_refl _) (fun _ => le_refl _)
      (by decide)⟩

/-! ### Asynchronous-driver invariant lemmas -/

theorem sys_inv_aupdate {R : Type} {ncpus numprocs : Nat} {k : String}
    {f : async_aggregator_state R → async_aggregator_state R}
    {l : List (String × async_aggregator_state R)}
    (h : ∀ e ∈ l, state_inv ncpus numprocs e.2)
    (hf : ∀ x, state_inv ncpus numprocs x → state_inv ncpus numprocs (f x)) :
    ∀ e ∈ aupdate k f l, state_inv ncpus numprocs e.2 := by
  intro e he
  rcases mem_aupdate he with h1 | ⟨x, hx, rfl⟩
  · exact h e h1
  · exact hf x (h (k, x) hx)

theorem sys_inv_mk {R : Type} {ncpus numprocs : Nat}
    {l : List (String × async_aggregator_state R)}
    {sch : List (List (String × ℚ))}
    (h : ∀ e ∈ l, state_inv ncpus numprocs e.2) :
    sys_inv ncpus numprocs { async_state := l, schedules := sch } := by
  intro e he
  exact h e he

theorem decrement_finalize_counter_inv {R : Type} {ncpus numprocs : Nat}
    {periods : List (String × ℚ)} {start_time tnow : ℚ} {key : String}
    {sys sys' : AsyncSys R}
    (hinv : sys_inv ncpus numprocs sys)
    (hpos : ∀ st, alookup sys.async_state key = some st →
      1 ≤ st.distributed_count_down)
    (h : decrement_finalize_counter numprocs periods start_time tnow key sys
      = some sys') :
    sys_inv ncpus numprocs sys' := by
  cases hlk : alookup sys.async_state key with
  | none =>
    simp only [decrement_finalize_counter, hlk] at h
    exact Option.noConfusion h
  | some st =>
    simp only [decrement_finalize_counter, hlk] at h
    have hst : state_inv ncpus numprocs st := hinv (key, st) (alookup_mem hlk)
    have h1 := hpos st hlk
    by_cases hz : st.distributed_count_down - 1 = 0
    · rw [if_pos hz] at h
      injection h with h
      subst h
      refine sys_inv_mk (sys_inv_aupdate hinv ?_)
      intro x hx
      exact ⟨hx.1, hx.2.1, Int.natCast_nonneg numprocs, le_refl _,
        hx.2.2.2.2⟩
    · rw [if_neg hz] at h
      injection h with h
      subst h
      refine sys_inv_mk (sys_inv_aupdate hinv ?_)
      intro x hx
      have hd : st.distributed_count_down ≤ (numprocs : Int) := hst.2.2.2.1
      refine ⟨hx.1, hx.2.1, ?_, ?_, hx.2.2.2.2⟩
      · show 0 ≤ st.distributed_count_down - 1
        omega
      · show st.distributed_count_down - 1 ≤ (numprocs : Int)
        omega

theorem decrement_distributed_counter_inv {R : Type}
    {ncpus numprocs procid : Nat} {periods : List (String × ℚ)}
    {start_time tnow : ℚ} {key : String} {sys sys' : AsyncSys R}
    (hP : 1 ≤ numprocs)
    (hinv : sys_inv ncpus numprocs sys)
    (h : decrement_distributed_counter procid numprocs periods start_time tnow
      key sys = some sys') :
    sys_inv ncpus numprocs sys' := by
  by_cases hp : procid = 0
  · cases hlk : alookup sys.async_state key with
    | none =>
      simp only [decrement_distributed_counter, hlk] at h
      rw [if_pos hp] at h
      exact Option.noConfusion h
    | some st =>
      simp only [decrement_distributed_counter, hlk] at h
      rw [if_pos hp] at h
      have hst := hinv (key, st) (alookup_mem hlk)
      by_cases hguard : st.distributed_count_down - 1 ≤ (numprocs : Int) ∧
          0 ≤ st.distributed_count_down - 1
      · rw [if_pos hguard] at h
        by_cases hz : st.distributed_count_down - 1 = 0
        · rw [if_pos hz] at h
          have hinv1 : sys_inv ncpus numprocs
              { sys with async_state := (aupdate key
                  (fun s => { s with distributed_count_down := (numprocs : Int),
                                     root_reducer := none })
                  sys.async_state) } := by
            refine sys_inv_mk (sys_inv_aupdate hinv ?_)
            intro x hx
            exact ⟨hx.1, hx.2.1, Int.natCast_nonneg numprocs, le_refl _,
              hx.2.2.2.2⟩
          refine decrement_finalize_counter_inv hinv1 ?_ h
          intro st2 hlk2
          have hlk3 : alookup (aupdate key
              (fun s => { s with distributed_count_down := (numprocs : Int),
                                 root_reducer := none })
              sys.async_state) key = some st2 := hlk2
          rw [alookup_aupdate_self _ hlk] at hlk3
          injection hlk3 with hlk3
          subst hlk3
          show 1 ≤ (numprocs : Int)
          exact_mod_cast hP
        · rw [if_neg hz] at h
          injection h with h
          subst h
          refine sys_inv_mk (sys_inv_aupdate hinv ?_)
          intro x hx
          obtain ⟨hg1, hg2⟩ := hguard
          exact ⟨hx.1, hx.2.1, hg2, hg1, hx.2.2.2.2⟩
      · rw [if_neg hguard] at h
        exact Option.noConfusion h
  · simp only [decrement_distributed_counter] at h
    rw [if_neg hp] at h
    exact Option.noConfusion h

theorem rpc_key_merge_inv {R : Type} {ncpus numprocs procid : Nat}
    {op : R → R → R} {periods : List (String × ℚ)} {start_time tnow : ℚ}
    {key : String} {acc : Option R} {sys sys' : AsyncSys R}
    (hP : 1 ≤ numprocs)
    (hinv : sys_inv ncpus numprocs sys)
    (h : rpc_key_merge op procid numprocs periods start_time tnow key acc sys
      = some sys') :
    sys_inv ncpus numprocs sys' := by
  cases hlk : alookup sys.async_state key with
  | none =>
    simp only [rpc_key_merge, hlk] at h
    exact Option.noConfusion h
  | some st =>
    simp only [rpc_key_merge, hlk] at h
    refine decrement_distributed_counter_inv hP ?_ h
    refine sys_inv_mk (sys_inv_aupdate hinv ?_)
    intro x hx
    exact ⟨hx.1, hx.2.1, hx.2.2.1, hx.2.2.2.1, hx.2.2.2.2⟩

theorem tick_asynchronous_compute_inv {V E R : Type}
    {ncpus numprocs procid : Nat} {op : R → R → R} {mr : MapReduce V E R}
    {g : List (LVert V E)} {periods : List (String × ℚ)}
    {start_time tnow : ℚ} {cpuid : Nat} {key : String} {sys sys' : AsyncSys R}
    (hP : 1 ≤ numprocs)
    (hinv : sys_inv ncpus numprocs sys)
    (h : tick_asynchronous_compute op mr procid numprocs ncpus g periods
      start_time tnow cpuid key sys = some sys') :
    sys_inv ncpus numprocs sys' := by
  cases hlk : alookup sys.async_state key with
  | none =>
    simp only [tick_asynchronous_compute, hlk] at h
    exact Option.noConfusion h
  | some st =>
    simp only [tick_asynchronous_compute, hlk] at h
    have hst : state_inv ncpus numprocs st := hinv (key, st) (alookup_mem hlk)
    by_cases hcpu : cpuid < st.per_thread_aggregation.length
    · rw [if_pos hcpu] at h
      by_cases hguard : st.local_count_down - 1 < (ncpus : Int) ∧
          0 ≤ st.local_count_down - 1
      · rw [if_pos hguard] at h
        by_cases hz : st.local_count_down - 1 = 0
        · rw [if_pos hz] at h
          have hst1 : ∀ b : Option R, state_inv ncpus numprocs
              { root_reducer := b,
                per_thread_aggregation :=
                  st.per_thread_aggregation.map (fun _ => (none : Option R)),
                local_count_down := (ncpus : Int),
                distributed_count_down := st.distributed_count_down } := by
            intro b
            refine ⟨Int.natCast_nonneg ncpus, le_refl _, hst.2.2.1,
              hst.2.2.2.1, ?_⟩
            rw [List.length_map]
            exact hst.2.2.2.2
          by_cases hproc : procid ≠ 0
          · rw [if_pos hproc] at h
            injection h with h
            subst h
            refine sys_inv_mk (sys_inv_aupdate hinv ?_)
            intro x _
            exact hst1 _
          · rw [if_neg hproc] at h
            refine decrement_distributed_counter_inv hP ?_ h
            refine sys_inv_mk (sys_inv_aupdate hinv ?_)
            intro x _
            exact hst1 _
        · rw [if_neg hz] at h
          injection h with h
          subst h
          refine sys_inv_mk (sys_inv_aupdate hinv ?_)
          intro x _
          obtain ⟨hg1, hg2⟩ := hguard
          refine ⟨hg2, le_of_lt hg1, hst.2.2.1, hst.2.2.2.1, ?_⟩
          rw [List.length_set]
          exact hst.2.2.2.2
      · rw [if_neg hguard] at h
        exact Option.noConfusion h
    · rw [if_neg hcpu] at h
      exact Option.noConfusion h

theorem async_run_inv {V E R : Type} {ncpus numprocs procid : Nat}
    {op : R → R → R} {mr : MapReduce V E R} {g : List (LVert V E)}
    {periods : List (String × ℚ)} {start_time : ℚ} {clk : Nat → ℚ}
    (hP : 1 ≤ numprocs) :
    ∀ (ops : List (AsyncOp R)) (i : Nat) (sys sys' : AsyncSys R),
      sys_inv ncpus numprocs sys →
      async_run op mr procid numprocs ncpus g periods start_time clk ops i sys
        = some sys' →
      sys_inv ncpus numprocs sys' := by
  intro ops
  induction ops with
  | nil =>
    intro i sys sys' hinv h
    simp only [async_run] at h
    injection h with h
    subst h
    exact hinv
  | cons o rest ih =>
    intro i sys sys' hinv h
    simp only [async_run] at h
    cases hstep : async_step op mr procid numprocs ncpus g periods start_time
        clk i o sys with
    | none => rw [hstep] at h; simp at h
    | some sys1 =>
      rw [hstep] at h
      have hinv1 : sys_inv ncpus numprocs sys1 := by
        cases o with
        | compute cpuid key =>
          exact tick_asynchronous_compute_inv hP hinv hstep
        | merge key acc =>
          exact rpc_key_merge_inv hP hinv hstep
        | decdist key =>
          exact decrement_distributed_counter_inv hP hinv hstep
      exact ih (i + 1) sys1 sys' hinv1 h

theorem start_async_state_inv {V E R : Type} {numprocs ncpus : Nat}
    {aggs : List (String × MapReduce V E R)} :
    ∀ (periods : List (String × ℚ))
      (ast ast' : List (String × async_aggregator_state R)),
      (∀ e ∈ ast, state_inv ncpus numprocs e.2) →
      start_async_state numprocs ncpus aggs periods ast = some ast' →
      ∀ e ∈ ast', state_inv ncpus numprocs e.2 := by
  intro periods
  induction periods with
  | nil =>
    intro ast ast' h hrun
    simp only [start_async_state] at hrun
    injection hrun with hrun
    subst hrun
    exact h
  | cons e rest ih =>
    intro ast ast' h hrun
    cases hlk : alookup aggs e.1 with
    | none =>
      simp only [start_async_state, hlk] at hrun
      exact Option.noConfusion hrun
    | some mr =>
      simp only [start_async_state, hlk] at hrun
      refine ih _ _ ?_ hrun
      have hfresh : state_inv (R := R) ncpus numprocs
          { root_reducer := none,
            per_thread_aggregation := List.replicate ncpus none,
            local_count_down := (ncpus : Int),
            distributed_count_down := (numprocs : Int) } :=
        ⟨Int.natCast_nonneg ncpus, le_refl _, Int.natCast_nonneg numprocs,
          le_refl _, List.length_replicate ncpus none⟩
      intro e2 he2
      unfold upsert at he2
      by_cases hs : (alookup ast e.1).isSome
      · rw [if_pos hs] at he2
        rcases mem_aupdate he2 with h1 | ⟨x, _, rfl⟩
        · exact h e2 h1
        · exact hfresh
      · rw [if_neg hs] at he2
        rcases List.mem_append.mp he2 with h1 | h1
        · exact h e2 h1
        · rw [List.mem_singleton.mp h1]
          exact hfresh

/-! ### Claim C6: the countdown and per-thread-vector invariant -/

/-- Claim C6: from the state `start(ncpus)` materializes (with
ncpus > 0 and at least one machine), every sequence of successful
(assertion-passing) `tick_asynchronous_compute`, `rpc_key_merge` and
`decrement_distributed_counter` steps preserves, for every periodic key:
local countdown in [0, ncpus], distributed countdown in [0, numprocs],
and a per-thread accumulator vector of exactly ncpus entries. -/
theorem async_countdown_invariant {V E R : Type} (op : R → R → R)
    (mr : MapReduce V E R) (procid numprocs ncpus : Nat)
    (g : List (LVert V E)) (periods : List (String × ℚ))
    (aggs : List (String × MapReduce V E R)) (start_time : ℚ) (clk : Nat → ℚ)
    (hn : 0 < ncpus) (hP : 1 ≤ numprocs)
    (ast0 : List (String × async_aggregator_state R))
    (h0 : start_async_state numprocs ncpus aggs periods [] = some ast0)
    (ops : List (AsyncOp R)) (i : Nat) (sys' : AsyncSys R)
    (hrun : async_run op mr procid numprocs ncpus g periods start_time clk ops
      i { async_state := ast0, schedules := List.replicate numprocs [] }
      = some sys') :
    sys_inv ncpus numprocs sys' := by
  have hinv0 : sys_inv ncpus numprocs
      { async_state := ast0, schedules := List.replicate numprocs [] } := by
    intro e he
    exact start_async_state_inv periods [] ast0 (by simp) h0 e he
  exact async_run_inv hP ops i _ sys' hinv0 hrun

/-- Claim C6 witness: one machine, one thread, one periodic key "x"; a
full compute round (which drains the local countdown, the distributed
countdown and the finalize countdown and reschedules the key) preserves
the invariant. -/
theorem async_countdown_invariant_witness :
    0 < 1 ∧ 1 ≤ 1 ∧
    start_async_state 1 1 regW [("x", (0 : ℚ))] [] = some astW ∧
    async_run (fun a b : Nat => a + b) mrW 0 1 1 [] [("x", (0 : ℚ))] 0
      (fun _ => 0) [AsyncOp.compute 0 "x"] 0
      { async_state := astW, schedules := List.replicate 1 [] }
      = some sysW6f ∧
    sys_inv 1 1 sysW6f :=
  ⟨Nat.zero_lt_one, le_refl 1, rfl, rfl,
    async_countdown_invariant (fun a b : Nat => a + b) mrW 0 1 1 []
      [("x", (0 : ℚ))] regW 0 (fun _ => 0) Nat.zero_lt_one (le_refl 1)
      astW rfl [AsyncOp.compute 0 "x"] 0 sysW6f rfl⟩

/-! ### Claim C5: finalize-countdown completion resets and reschedules -/

/-- Claim C5: when the finalize-acknowledge countdown of a key drops to
zero in `decrement_finalize_counter`, the distributed countdown is reset
to the machine count and the key is pushed into the schedule of every
machine (the coordinator included) with fire-time equal to the completion
time (the clock reading `tnow` as an offset from `start_time`) plus the
key's period. -/
theorem decrement_finalize_counter_resets_and_reschedules {R : Type}
    (numprocs : Nat) (periods : List (String × ℚ)) (start_time tnow : ℚ)
    (key : String) (sys : AsyncSys R) (st : async_aggregator_state R)
    (hlk : alookup sys.async_state key = some st)
    (h1 : st.distributed_count_down = 1) :
    ∃ sys',
      decrement_finalize_counter numprocs periods start_time tnow key sys
        = some sys' ∧
      alookup sys'.async_state key =
        some { st with distributed_count_down := (numprocs : Int) } ∧
      ∀ (p : Nat) (sch : List (String × ℚ)), sys.schedules[p]? = some sch →
        sys'.schedules[p]? =
          some ((key, -((tnow - start_time) + periodOf periods key)) :: sch)
    := by
  have hz : st.distributed_count_down - 1 = 0 := by rw [h1]; norm_num
  refine ⟨{ async_state := aupdate key
              (fun s => { s with distributed_count_down := (numprocs : Int) })
              sys.async_state,
            schedules := sys.schedules.map (rpc_schedule_key key
              (tnow + periodOf periods key - start_time)) }, ?_, ?_, ?_⟩
  · simp only [decrement_finalize_counter, hlk]
    rw [if_pos hz]
  · show alookup (aupdate key
        (fun s => { s with distributed_count_down := (numprocs : Int) })
        sys.async_state) key
      = some { st with distributed_count_down := (numprocs : Int) }
    exact alookup_aupdate_self _ hlk
  · intro p sch hp
    show (sys.schedules.map (rpc_schedule_key key
      (tnow + periodOf periods key - start_time)))[p]? = _
    rw [List.getElem?_map, hp]
    show some (rpc_schedule_key key
      (tnow + periodOf periods key - start_time) sch) = _
    unfold rpc_schedule_key
    have harith : tnow + periodOf periods key - start_time
        = (tnow - start_time) + periodOf periods key := by ring
    rw [harith]

/-- Claim C5 witness: a one-machine system whose finalize countdown for
key "k" stands at 1; the decrement resets it to numprocs = 1 and pushes
the rescheduled entry on the machine's schedule. -/
theorem decrement_finalize_counter_resets_and_reschedules_witness :
    alookup sysW5.async_state "k" = some stW5 ∧
    stW5.distributed_count_down = 1 ∧
    ∃ sys',
      decrement_finalize_counter 1 [] 0 2 "k" sysW5 = some sys' ∧
      alookup sys'.async_state "k" =
        some { stW5 with distributed_count_down := ((1 : Nat) : Int) } ∧
      ∀ (p : Nat) (sch : List (String × ℚ)), sysW5.schedules[p]? = some sch →
        sys'.schedules[p]? =
          some (("k", -(((2 : ℚ) - 0) + periodOf [] "k")) :: sch) :=
  ⟨rfl, rfl,
    decrement_finalize_counter_resets_and_reschedules 1 [] 0 2 "k" sysW5 stW5
      rfl rfl⟩

/-! ### Claim C8: `stop` resets the dynamic state and a later `start`
reproduces the initial armed state -/

/-- Claim C8: after `stop()` the schedule is empty, the asynchronous
state map is empty (root and per-thread accumulators torn down), and
every registered descriptor's sum is cleared; a subsequent `start()` then
produces exactly the state it would produce on a freshly constructed
aggregator carrying the same registrations (whose descriptors have empty
accumulators, as registration creates them) and the same period table. -/
theorem stop_clears_and_start_reproduces {V E R : Type} (numprocs n : Nat)
    (t : ℚ) (s : DistributedAggregator V E R) :
    (stop s).schedule = [] ∧ (stop s).async_state = [] ∧
    (∀ e ∈ (stop s).aggregators, e.2.acc = none) ∧
    start numprocs n t (stop s) =
      start numprocs n t (initial_state s.aggregators s.aggregate_period) := by
  refine ⟨rfl, rfl, ?_, ?_⟩
  · intro e he
    simp only [stop] at he
    rcases List.mem_map.mp he with ⟨a, _, rfl⟩
    rfl
  · rfl

/-- Claim C8 witness: the reset and the start equality at a concrete
mid-run aggregator. -/
theorem stop_clears_and_start_reproduces_witness :
    (stop daggW).schedule = [] ∧ (stop daggW).async_state = [] ∧
    (∀ e ∈ (stop daggW).aggregators, e.2.acc = none) ∧
    start 1 1 7 (stop daggW) =
      start 1 1 7 (initial_state daggW.aggregators daggW.aggregate_period) :=
  stop_clears_and_start_reproduces 1 1 7 daggW

/-! ### Claim C9: `stop` leaves the registry and the period table
unchanged, so a later `start` re-arms the same periodic keys -/

/-- Claim C9: `stop()` preserves every registered key (it only clears the
accumulators) and the whole period table, and a subsequent `start()`
re-arms the schedule with exactly the period-table entries pushed as
(key, -period) — no re-registration needed. -/
theorem stop_preserves_registry_and_period_table {V E R : Type}
    (numprocs n : Nat) (t : ℚ) (s : DistributedAggregator V E R) :
    (stop s).aggregators.map Prod.fst = s.aggregators.map Prod.fst ∧
    (stop s).aggregate_period = s.aggregate_period ∧
    (∀ s1, start numprocs n t (stop s) = some s1 →
      s1.schedule =
        s.aggregate_period.foldl (fun sch e => (e.1, -e.2) :: sch) []) := by
  refine ⟨?_, rfl, ?_⟩
  · simp only [stop]
    rw [List.map_map]
    exact List.map_congr_left (fun a _ => rfl)
  · intro s1 hs1
    simp only [start] at hs1
    by_cases hn0 : 0 < n
    · rw [if_pos hn0] at hs1
      cases hast : start_async_state numprocs n (stop s).aggregators
          (stop s).aggregate_period (stop s).async_state with
      | none =>
        rw [hast] at hs1
        exact Option.noConfusion hs1
      | some ast =>
        rw [hast] at hs1
        injection hs1 with hs1
        subst hs1
        rfl
    · rw [if_neg hn0] at hs1
      injection hs1 with hs1
      subst hs1
      rfl

/-- Claim C9 witness: registry keys, period table and re-armed schedule
at a concrete mid-run aggregator. -/
theorem stop_preserves_registry_and_period_table_witness :
    (stop daggW).aggregators.map Prod.fst = daggW.aggregators.map Prod.fst ∧
    (stop daggW).aggregate_period = daggW.aggregate_period ∧
    (∀ s1, start 1 1 7 (stop daggW) = some s1 →
      s1.schedule =
        daggW.aggregate_period.foldl (fun sch e => (e.1, -e.2) :: sch) []) :=
  stop_preserves_registry_and_period_table 1 1 7 daggW

end GraphLab
